import Mathlib

/-!
# A shallow embedding of the wmc BitTorrent bootstrap client

This file embeds the parts of the `vandenbogart/wmc` repository that the
frozen claims speak about:

* the magnet-URI parser (`src/src/peer/magnet.rs`, `Magnet::from_link`);
* the pure codec layer (`src/peer/src/messages.rs` and the
  `ConnectResponse` / `AnnounceResponse` decoders of
  `src/src/peer/tracker_stream.rs`);
* the UDP tracker receive loops of `TrackerConnection::handshake` and
  `TrackerConnection::announce` (`src/src/peer/tracker_stream.rs`),
  modelled as functions over the list of datagrams that arrive before the
  timeout;
* the peer-wire handshake and framed reader (`src/src/peer/peer_stream.rs`),
  modelled over a byte-list stream;
* the orchestrator's deduplication step (`Trackers::announce` in
  `src/src/lib.rs`).

Byte strings are `List Nat`, with hypotheses `b < 256` added where a
theorem's meaning depends on byte range.  Machine-integer conversions
(`as usize`, `as u8`, byteorder's sign-extending `read_int`) are written
out with explicit arithmetic on `Nat`/`Int`.  Rust panics (slice range
failures, `panic!`, `unwrap` on `None`, debug-mode integer underflow,
`Vec` capacity overflow) are the `panic` outcome of the `RResult` type;
`?`-propagated errors are `err`.
-/

/-- Outcome of a fallible Rust computation: a value, a propagated error
(`Result::Err` / `?`), or a panic. -/
inductive RResult (ε : Type) (α : Type) where
  | ok (a : α) : RResult ε α
  | err (e : ε) : RResult ε α
  | panic : RResult ε α
deriving DecidableEq, Repr

/-- Sequencing that propagates errors and panics. -/
def RResult.bind {ε α β : Type} : RResult ε α → (α → RResult ε β) → RResult ε β
  | .ok a, f => f a
  | .err e, _ => .err e
  | .panic, _ => .panic

/-- Rust slice indexing `&bytes[a..b]`: panics when the range is invalid,
otherwise yields the sub-list. -/
def sliceGet {ε : Type} (l : List Nat) (a b : Nat) : RResult ε (List Nat) :=
  if a ≤ b ∧ b ≤ l.length then .ok ((l.drop a).take (b - a)) else .panic

/-- Rust `bytes[a..b].copy_from_slice(&src)`: panics when the range is
invalid or the source length differs from the range length. -/
def copyFromSlice {ε : Type} (l : List Nat) (a b : Nat) (src : List Nat) :
    RResult ε (List Nat) :=
  if a ≤ b ∧ b ≤ l.length ∧ src.length = b - a then
    .ok (l.take a ++ src ++ l.drop b)
  else .panic

/-- Big-endian unsigned interpretation of a byte list (used for the u16,
u32 and u64 reads of the `byteorder` crate). -/
def beNat (l : List Nat) : Nat := l.foldl (fun acc b => 256 * acc + b) 0

/-- `BigEndian::read_i64`: big-endian unsigned value reinterpreted as a
two's-complement signed 64-bit integer. -/
def beI64 (l : List Nat) : Int :=
  if beNat l < 2 ^ 63 then (beNat l : Int) else (beNat l : Int) - 2 ^ 64

/-! ## Codec: `src/peer/src/messages.rs` -/

/-- `HandShake` record: protocol string, info hash and peer id. -/
structure HandShake where
  pstr : List Nat
  info_hash : List Nat
  peer_id : List Nat
deriving DecidableEq, Repr

/-- `HandShake::to_bytes`: allocates `49 + pstrlen` zero bytes, then writes
`pstrlen` (low byte, via `BigEndian::write_int(.., 1)`), the protocol
string, 8 reserved bytes, the info hash and the peer id with
`copy_from_slice`. -/
def hsToBytes {ε : Type} (h : HandShake) : RResult ε (List Nat) :=
  let pstrlen := h.pstr.length
  let size := 49 + pstrlen
  let bytes := List.replicate size 0
  (copyFromSlice bytes 0 1 [pstrlen % 256]).bind fun bytes =>
  (copyFromSlice bytes 1 (pstrlen + 1) h.pstr).bind fun bytes =>
  (copyFromSlice bytes (pstrlen + 1) (pstrlen + 9) (List.replicate 8 0)).bind fun bytes =>
  (copyFromSlice bytes (pstrlen + 9) (pstrlen + 29) h.info_hash).bind fun bytes =>
  (copyFromSlice bytes (pstrlen + 29) (pstrlen + 49) h.peer_id).bind fun bytes =>
  .ok bytes

/-- `HandShake::from_bytes`.  `BigEndian::read_int(bytes, 1) as usize`
sign-extends the first byte: a byte `b ≥ 128` becomes the 64-bit value
`2^64 - (256 - b)`.  Every field is then extracted with a panicking slice. -/
def hsFromBytes {ε : Type} (bytes : List Nat) : RResult ε HandShake :=
  if bytes.length < 1 then .panic
  else
    let b0 := bytes.headD 0
    let pstrlen : Nat := if b0 < 128 then b0 else 2 ^ 64 - (256 - b0)
    (sliceGet bytes 1 (pstrlen + 1)).bind fun pstr =>
    (sliceGet bytes (pstrlen + 1) (pstrlen + 9)).bind fun _reserved =>
    (sliceGet bytes (pstrlen + 9) (pstrlen + 29)).bind fun info_hash =>
    (sliceGet bytes (pstrlen + 29) (pstrlen + 49)).bind fun peer_id =>
    .ok ⟨pstr, info_hash, peer_id⟩

/-- The wire layout of a handshake as the spec describes it:
`pstrlen(1) || pstr || reserved(8 zero) || info_hash || peer_id` (the
length byte is the low byte of the protocol-string length). -/
def hsLayout (h : HandShake) : List Nat :=
  [h.pstr.length % 256] ++ h.pstr ++ List.replicate 8 0 ++ h.info_hash ++ h.peer_id

/-- Peer-wire message identifiers (`MessageTypes` in `messages.rs`). -/
inductive MessageTypes where
  | choke
  | unchoke
  | interested
  | notInterested
  | haveMsg
  | bitfield
  | request
  | piece
  | cancel
  | portMsg
deriving DecidableEq, Repr

/-- `impl From<u8> for MessageTypes`: the source matches 1–9 and panics on
every other value, 0 included. -/
def messageTypesFromU8 (value : Nat) : RResult Unit MessageTypes :=
  match value with
  | 1 => .ok .unchoke
  | 2 => .ok .interested
  | 3 => .ok .notInterested
  | 4 => .ok .haveMsg
  | 5 => .ok .bitfield
  | 6 => .ok .request
  | 7 => .ok .piece
  | 8 => .ok .cancel
  | 9 => .ok .portMsg
  | _ => .panic

/-- `RawMessage`: a message id together with an opaque payload. -/
structure RawMessage where
  message_id : Nat
  payload : List Nat
deriving DecidableEq, Repr

/-- `impl From<&[u8]> for RawMessage`: the empty slice becomes the
keep-alive sentinel `{0, []}`; otherwise the id is
`BigEndian::read_int(bytes, 1) as u8` (sign-extend the first byte, then
truncate back to the low 8 bits) and the payload is the remainder. -/
def rawFromBytes : List Nat → RawMessage
  | [] => ⟨0, []⟩
  | b :: rest =>
    ⟨(((if b < 128 then (b : Int) else (b : Int) - 256)) % 256).toNat, rest⟩

/-- `impl From<RawMessage> for Vec<u8>`: id byte followed by the payload. -/
def rawToBytes (m : RawMessage) : List Nat := m.message_id :: m.payload

/-! ## Tracker codec: `src/src/peer/tracker_stream.rs` -/

/-- CONNECT response record. -/
structure ConnectResponse where
  action : Nat
  transaction_id : Nat
  connection_id : Int
deriving DecidableEq, Repr

/-- `ConnectResponse::from_bytes`: three panicking slices then big-endian
reads; the function returns `Self`, so a short buffer panics rather than
producing an error. -/
def connectResponseFromBytes {ε : Type} (bytes : List Nat) :
    RResult ε ConnectResponse :=
  (sliceGet bytes 0 4).bind fun s1 =>
  (sliceGet bytes 4 8).bind fun s2 =>
  (sliceGet bytes 8 16).bind fun s3 =>
  .ok ⟨beNat s1, beNat s2, beI64 s3⟩

/-- A compact peer entry: IPv4 quad plus port, equality componentwise
(mirrors `SocketAddr` built from 6 bytes). -/
structure PeerAddr where
  ipA : Nat
  ipB : Nat
  ipC : Nat
  ipD : Nat
  port : Nat
deriving DecidableEq, Repr

/-- Decoding of the 6-byte chunks of an announce peer tail.  The source
iterates `peer_list.chunks(6)` after checking divisibility by 6, so the
partial-chunk arm is unreachable. -/
def parsePeers : List Nat → List PeerAddr
  | a :: b :: c :: d :: p1 :: p2 :: rest =>
    ⟨a, b, c, d, 256 * p1 + p2⟩ :: parsePeers rest
  | _ => []

/-- ANNOUNCE response record. -/
structure AnnounceResponse where
  action : Nat
  transaction_id : Nat
  interval : Nat
  leechers : Nat
  seeders : Nat
  peers : List PeerAddr
deriving DecidableEq, Repr

/-- `AnnounceResponse::from_bytes(bytes, length)`: five header reads from
the receive buffer, then the peer tail `&bytes[20..length]`; a tail length
not divisible by 6 hits an explicit `panic!`. -/
def announceResponseFromBytes {ε : Type} (bytes : List Nat) (length : Nat) :
    RResult ε AnnounceResponse :=
  (sliceGet bytes 0 4).bind fun s1 =>
  (sliceGet bytes 4 8).bind fun s2 =>
  (sliceGet bytes 8 12).bind fun s3 =>
  (sliceGet bytes 12 16).bind fun s4 =>
  (sliceGet bytes 16 20).bind fun s5 =>
  (sliceGet bytes 20 length).bind fun peer_list =>
  if peer_list.length % 6 ≠ 0 then .panic
  else .ok ⟨beNat s1, beNat s2, beNat s3, beNat s4, beNat s5, parsePeers peer_list⟩

/-! ## Tracker receive loops: `TrackerConnection::handshake` / `announce`

Each loop is modelled over the finite list of datagrams `(source, data)`
that arrive before the 3-second timeout fires; exhausting the list is the
timeout.  `recv_from` truncates a datagram to the receive buffer and
reports the number of bytes written, and the buffer persists across
iterations, so the buffer state is threaded through the recursion. -/

/-- Outcome of the CONNECT exchange. -/
inductive HsOutcome where
  | ok (connection_id : Int)
  | badLength
  | mismatchedTid
  | timedOut
deriving DecidableEq, Repr

/-- The receive loop of `TrackerConnection::handshake` with a 16-byte
buffer: datagrams from the wrong source are skipped (but still overwrite
the buffer); a right-source datagram that does not fill 16 bytes aborts;
otherwise the loop breaks and the response is parsed and its
transaction id compared. -/
def connectRecvLoop (req_tid addr : Nat) :
    List Nat → List (Nat × List Nat) → HsOutcome
  | _, [] => .timedOut
  | buffer, (src, data) :: rest =>
    let n := min data.length 16
    let buffer' := data.take 16 ++ buffer.drop n
    if src ≠ addr then connectRecvLoop req_tid addr buffer' rest
    else if n ≠ 16 then .badLength
    else
      match connectResponseFromBytes (ε := Unit) buffer' with
      | .ok resp =>
        if resp.transaction_id ≠ req_tid then .mismatchedTid
        else .ok resp.connection_id
      | _ => .badLength

/-- `TrackerConnection::handshake`, given the request's random
transaction id, the tracker's resolved address and the arriving
datagrams. -/
def trackerConnectModel (req_tid addr : Nat) (packets : List (Nat × List Nat)) :
    HsOutcome :=
  connectRecvLoop req_tid addr (List.replicate 16 0) packets

/-- Outcome of the ANNOUNCE exchange. -/
inductive AnnOutcome where
  | ok (peers : List PeerAddr)
  | mismatchedTid
  | timedOut
  | panicked
deriving DecidableEq, Repr

/-- The receive loop of `TrackerConnection::announce` with a 4000-byte
buffer: wrong-source datagrams are skipped; the first right-source
datagram breaks the loop with its size `n` (no size check), after which
`AnnounceResponse::from_bytes(&buffer, n)` runs and the transaction id is
compared. -/
def announceRecvLoop (req_tid addr : Nat) :
    List Nat → List (Nat × List Nat) → AnnOutcome
  | _, [] => .timedOut
  | buffer, (src, data) :: rest =>
    let n := min data.length 4000
    let buffer' := data.take 4000 ++ buffer.drop n
    if src ≠ addr then announceRecvLoop req_tid addr buffer' rest
    else
      match announceResponseFromBytes (ε := Unit) buffer' n with
      | .ok resp =>
        if resp.transaction_id ≠ req_tid then .mismatchedTid
        else .ok resp.peers
      | .panic => .panicked
      | .err _ => .timedOut

/-- `TrackerConnection::announce`, abstracted over the request's random
transaction id, the tracker's resolved address and the arriving
datagrams. -/
def trackerAnnounceModel (req_tid addr : Nat) (packets : List (Nat × List Nat)) :
    AnnOutcome :=
  announceRecvLoop req_tid addr (List.replicate 4000 0) packets

/-! ## Peer stream: `src/src/peer/peer_stream.rs` -/

/-- The peer-stream error values (`PeerError`) plus the `anyhow` contexts
used for failed reads. -/
inductive PeerErr where
  | failedRead
  | badProtocol
  | badInfoHash
deriving DecidableEq, Repr

/-- Options passed to `PeerStream::connect`. -/
structure PeerStreamOpts where
  protocol : List Nat
  info_hash : List Nat
  peer_id : List Nat
deriving DecidableEq, Repr

/-- `PeerStream::handshake` over a byte stream: send the request
handshake, `read_exact` as many bytes as the request encodes to, decode
them with `HandShake::from_bytes`, then compare `pstr` (→ `BadProtocol`)
and `info_hash` (→ `BadInfoHash`); on success return the remote
handshake, its `peer_id` unchecked. -/
def peerHandshake (opts : PeerStreamOpts) (stream : List Nat) :
    RResult PeerErr HandShake :=
  let request : HandShake := ⟨opts.protocol, opts.info_hash, opts.peer_id⟩
  (hsToBytes request).bind fun reqBytes =>
  (if reqBytes.length ≤ stream.length then
      RResult.ok (ε := PeerErr) (stream.take reqBytes.length)
    else .err .failedRead).bind fun bytes =>
  (hsFromBytes bytes).bind fun response =>
  if request.pstr ≠ response.pstr then .err .badProtocol
  else if request.info_hash ≠ response.info_hash then .err .badInfoHash
  else .ok response

/-- `PeerStream::read_message` over a byte stream: `read_exact` 4 bytes,
interpret them with the sign-extending `BigEndian::read_int(.., 4)` and
cast to the 64-bit `usize`, allocate `vec![0u8; length]` (capacity
overflow panics when the length exceeds `isize::MAX`), `read_exact` that
many bytes and convert them with `RawMessage::from`. -/
def readMessage (s : List Nat) : RResult PeerErr RawMessage :=
  if 4 ≤ s.length then
    let u := beNat (s.take 4)
    let signed : Int := if u < 2 ^ 31 then (u : Int) else (u : Int) - 2 ^ 32
    let length : Nat := (signed % (2 ^ 64 : Int)).toNat
    if 2 ^ 63 - 1 < length then .panic
    else if 4 + length ≤ s.length then
      .ok (rawFromBytes ((s.drop 4).take length))
    else .err .failedRead
  else .err .failedRead

/-! ## Magnet parser: `src/src/peer/magnet.rs`

`Magnet::from_link` percent-decodes the whole link with
`urlencoding::decode` (an error only when the decoded bytes are not valid
UTF-8), strips the first 8 bytes, splits on `&`, and dispatches each
`key=value` pair.  The percent decoder and the UTF-8 validity check are
modelled from the documented behaviour of the external `urlencoding`
crate (a `%` followed by two hex digits becomes that byte; malformed
escapes pass through verbatim). -/

/-- Hex digit value, as accepted by both `urlencoding` and the `hex`
crate. -/
def hexVal (c : Nat) : Option Nat :=
  if 48 ≤ c ∧ c ≤ 57 then some (c - 48)
  else if 65 ≤ c ∧ c ≤ 70 then some (c - 55)
  else if 97 ≤ c ∧ c ≤ 102 then some (c - 87)
  else none

/-- Percent-decoding at the byte level (`urlencoding::decode`): `%XY`
with two hex digits becomes the byte `16*X + Y`; otherwise the `%` is
emitted and scanning resumes after it. -/
def percentDecode : List Nat → List Nat
  | [] => []
  | 37 :: c1 :: c2 :: rest =>
    match hexVal c1, hexVal c2 with
    | some hi, some lo => (16 * hi + lo) :: percentDecode rest
    | _, _ => 37 :: percentDecode (c1 :: c2 :: rest)
  | b :: rest => b :: percentDecode rest

/-- Is a byte a UTF-8 continuation byte? -/
def contB (b : Nat) : Bool := 128 ≤ b ∧ b < 192

/-- UTF-8 validity of a byte list (the `String::from_utf8` check inside
`urlencoding::decode`). -/
def utf8Valid : List Nat → Bool
  | [] => true
  | b :: rest =>
    if b < 128 then utf8Valid rest
    else if 194 ≤ b ∧ b ≤ 223 then
      match rest with
      | c1 :: r => contB c1 && utf8Valid r
      | [] => false
    else if b = 224 then
      match rest with
      | c1 :: c2 :: r => (160 ≤ c1 ∧ c1 ≤ 191 : Bool) && contB c2 && utf8Valid r
      | _ => false
    else if 225 ≤ b ∧ b ≤ 236 then
      match rest with
      | c1 :: c2 :: r => contB c1 && contB c2 && utf8Valid r
      | _ => false
    else if b = 237 then
      match rest with
      | c1 :: c2 :: r => (128 ≤ c1 ∧ c1 ≤ 159 : Bool) && contB c2 && utf8Valid r
      | _ => false
    else if 238 ≤ b ∧ b ≤ 239 then
      match rest with
      | c1 :: c2 :: r => contB c1 && contB c2 && utf8Valid r
      | _ => false
    else if b = 240 then
      match rest with
      | c1 :: c2 :: c3 :: r => (144 ≤ c1 ∧ c1 ≤ 191 : Bool) && contB c2 && contB c3 && utf8Valid r
      | _ => false
    else if 241 ≤ b ∧ b ≤ 243 then
      match rest with
      | c1 :: c2 :: c3 :: r => contB c1 && contB c2 && contB c3 && utf8Valid r
      | _ => false
    else if b = 244 then
      match rest with
      | c1 :: c2 :: c3 :: r => (128 ≤ c1 ∧ c1 ≤ 143 : Bool) && contB c2 && contB c3 && utf8Valid r
      | _ => false
    else false

/-- Rust `str::is_char_boundary` on a byte list. -/
def isCharBoundary (l : List Nat) (i : Nat) : Bool :=
  i == 0 || i == l.length ||
    (match l.get? i with
     | some b => !contB b
     | none => false)

/-- Rust string slicing `&s[i..]`: panics when `i` is out of range or not
a character boundary. -/
def sliceFrom {ε : Type} (l : List Nat) (i : Nat) : RResult ε (List Nat) :=
  if i ≤ l.length ∧ isCharBoundary l i then .ok (l.drop i) else .panic

/-- `str::split("&")` at the byte level (the separator byte 38 cannot
occur inside a multi-byte UTF-8 character). -/
def splitOnAmp : List Nat → List (List Nat)
  | [] => [[]]
  | b :: rest =>
    let r := splitOnAmp rest
    if b = 38 then [] :: r
    else
      match r with
      | h :: t => (b :: h) :: t
      | [] => [[b]]

/-- `str::split_once("=")`: key before the first `=`, value after. -/
def splitOnceEq : List Nat → Option (List Nat × List Nat)
  | [] => none
  | b :: rest =>
    if b = 61 then some ([], rest)
    else (splitOnceEq rest).map fun kv => (b :: kv.1, kv.2)

/-- `hex::decode`: pairs of hex digits, erring on an odd length or a
non-hex character. -/
def hexDecode : List Nat → Option (List Nat)
  | [] => some []
  | [_] => none
  | c1 :: c2 :: rest =>
    match hexVal c1, hexVal c2 with
    | some hi, some lo => (hexDecode rest).map fun bs => (16 * hi + lo) :: bs
    | _, _ => none

/-- The error the parser can propagate with `?`: invalid UTF-8 out of
`urlencoding::decode`, or a `hex::decode` failure on an `xt` value. -/
inductive MagnetErr where
  | utf8
  | hex
deriving DecidableEq, Repr

/-- Mutable state of the `for` loop in `Magnet::from_link`. -/
structure MagnetState where
  trackers : List (List Nat)
  exact_topic : List Nat
  display_name : List Nat
deriving DecidableEq, Repr

/-- The parsed `Magnet` record.  `Url::from_str` of the `tr` branch is an
external-crate parse that only filters which tracker URLs are kept and
can never fail or abort `from_link`; the model keeps the raw decoded
values, which no claim inspects. -/
structure Magnet where
  info_hash : List Nat
  display_name : List Nat
  trackers : List (List Nat)
deriving DecidableEq, Repr

/-- The `for` loop of `Magnet::from_link`.  Each item must contain `=`
(`split_once(..).unwrap()` panics otherwise).  An `xt` value is sliced to
its last 40 bytes (`value[value.len() - 40..]`, a debug-mode underflow
panic when shorter, and a boundary-checked slice), hex-decoded (`?` on
failure) and copied over the 20-byte buffer.  `dn` replaces the display
name; `tr` appends; unknown keys are skipped. -/
def processItems : List (List Nat) → MagnetState → RResult MagnetErr MagnetState
  | [], st => .ok st
  | item :: rest, st =>
    match splitOnceEq item with
    | none => .panic
    | some (key, value) =>
      if key = [120, 116] then
        if value.length < 40 then .panic
        else
          (sliceFrom value (value.length - 40)).bind fun info_string =>
          match hexDecode info_string with
          | none => .err .hex
          | some bs =>
            if bs.length = st.exact_topic.length then
              processItems rest { st with exact_topic := bs }
            else .panic
      else if key = [100, 110] then
        processItems rest { st with display_name := value }
      else if key = [116, 114] then
        processItems rest { st with trackers := st.trackers ++ [value] }
      else processItems rest st

/-- The item list of a link: decoded bytes after the first 8, split on
`&`. -/
def magnetItems (link : List Nat) : List (List Nat) :=
  splitOnAmp ((percentDecode link).drop 8)

/-- `Magnet::from_link`. -/
def fromLink (link : List Nat) : RResult MagnetErr Magnet :=
  let decoded := percentDecode link
  if utf8Valid decoded then
    (sliceFrom decoded 8).bind fun slice =>
    (processItems (splitOnAmp slice) ⟨[], List.replicate 20 0, []⟩).bind fun st =>
    .ok ⟨st.exact_topic, st.display_name, st.trackers⟩
  else .err .utf8

/-- Claim-side check used to state C1: does an item carry a key other
than `xt`?  (`[120, 116]` is `"xt"`.) -/
def itemNotXt (it : List Nat) : Bool :=
  match splitOnceEq it with
  | some (k, _) => k ≠ [120, 116]
  | none => false

/-! ## Orchestrator deduplication: `Trackers::announce` in `src/src/lib.rs` -/

/-- The `retain(|i| uniques.insert(*i))` pass over the flattened peer
list: `seen` is the hash set, an element is kept exactly when it was not
seen before. -/
def dedupRetain (seen : List PeerAddr) : List PeerAddr → List PeerAddr
  | [] => []
  | x :: xs => if x ∈ seen then dedupRetain seen xs else x :: dedupRetain (x :: seen) xs

/-- The aggregation step of `Trackers::announce`: flatten the per-tracker
peer lists in completion order, then deduplicate with the retain/insert
pass. -/
def announceAggregate (results : List (List PeerAddr)) : List PeerAddr :=
  dedupRetain [] results.flatten

/-- Modelled from the spec: "the concatenation of those lists with every
later duplicate (equal `(ip, port)`) removed — each distinct address
appears exactly once, at the position of its first occurrence".  The head
of the concatenation is kept and every later occurrence of it is erased,
recursively. -/
def firstSeenDedup : List PeerAddr → List PeerAddr
  | [] => []
  | x :: xs => x :: firstSeenDedup (xs.filter fun y => y ≠ x)
termination_by l => l.length
decreasing_by
  simp only [List.length_cons]
  exact Nat.lt_succ_of_le (List.length_filter_le _ _)

/-! ## Helper lemmas -/

@[simp] theorem RResult.bind_ok {ε α β : Type} (a : α) (f : α → RResult ε β) :
    RResult.bind (.ok a) f = f a := rfl

@[simp] theorem RResult.bind_err {ε α β : Type} (e : ε) (f : α → RResult ε β) :
    RResult.bind (.err e) f = .err e := rfl

@[simp] theorem RResult.bind_panic {ε α β : Type} (f : α → RResult ε β) :
    RResult.bind (ε := ε) .panic f = .panic := rfl

theorem sliceGet_of {ε : Type} (l : List Nat) {a b : Nat} (h1 : a ≤ b)
    (h2 : b ≤ l.length) :
    sliceGet (ε := ε) l a b = .ok ((l.drop a).take (b - a)) := by
  simp [sliceGet, h1, h2]

theorem sliceGet_append {ε : Type} {l₁ : List Nat} (l₂ : List Nat) {a b : Nat}
    (h : b ≤ l₁.length) :
    sliceGet (ε := ε) (l₁ ++ l₂) a b = sliceGet l₁ a b := by
  by_cases hab : a ≤ b
  · rw [sliceGet_of l₁ hab h, sliceGet_of (l₁ ++ l₂) hab
      (by simp only [List.length_append]; omega)]
    rw [List.drop_append_of_le_length (by omega),
      List.take_append_of_le_length (by simp only [List.length_drop]; omega)]
  · simp [sliceGet, hab]

theorem copyFromSlice_of {ε : Type} (l src : List Nat) {a b : Nat} (h1 : a ≤ b)
    (h2 : b ≤ l.length) (h3 : src.length = b - a) :
    copyFromSlice (ε := ε) l a b src = .ok (l.take a ++ src ++ l.drop b) := by
  simp [copyFromSlice, h1, h2, h3]

theorem sliceGet_panic {ε : Type} (l : List Nat) {a b : Nat}
    (h : ¬(a ≤ b ∧ b ≤ l.length)) : sliceGet (ε := ε) l a b = .panic := by
  simp [sliceGet, h]

theorem rawFromBytes_headD (l : List Nat) (h : l.headD 0 < 256) :
    rawFromBytes l = ⟨l.headD 0, l.tail⟩ := by
  match l with
  | [] => rfl
  | b :: rest =>
    simp only [List.headD_cons] at h
    simp only [rawFromBytes, List.headD_cons, List.tail_cons, RawMessage.mk.injEq,
      and_true]
    by_cases hb : b < 128
    · rw [if_pos hb]
      omega
    · rw [if_neg hb]
      omega

/-! ## C9: message-type identifier 0 -/

/-- C9: the claim (and the spec) say the u8 value 0 is a valid `Choke`
identifier and must decode successfully; the source's `From<u8>` match
panics on 0.  This theorem evaluates the code at the failing input. -/
theorem message_type_zero_panics : messageTypesFromU8 0 = .panic := rfl

/-! ## C10: RawMessage round-trip and keep-alive conflation -/

/-- C10: for every non-empty byte slice the bytes → `RawMessage` → bytes
round-trip is the identity; the empty (keep-alive) slice decodes to
`{0, []}`, which re-encodes to the single byte `[0]` — the same record
the one-byte Choke body `[0]` decodes to — so the empty input does not
round-trip and the conversion from bytes is not injective. -/
theorem raw_message_roundtrip :
    (∀ b : List Nat, b ≠ [] → (∀ x ∈ b, x < 256) →
      rawToBytes (rawFromBytes b) = b) ∧
    rawFromBytes [] = ⟨0, []⟩ ∧
    rawToBytes ⟨0, []⟩ = [0] ∧
    rawFromBytes [0] = rawFromBytes [] := by
  refine ⟨fun b hne hb => ?_, rfl, rfl, by decide⟩
  match b with
  | [] => exact absurd rfl hne
  | x :: rest =>
    rw [rawFromBytes_headD _ (by simpa using hb x (List.mem_cons_self x rest))]
    rfl

/-- C10 witness: the round-trip theorem applied to the concrete slice
`[5, 1, 2]`. -/
theorem raw_message_roundtrip_witness :
    rawToBytes (rawFromBytes [5, 1, 2]) = [5, 1, 2] :=
  raw_message_roundtrip.1 [5, 1, 2] (by decide) (by decide)

/-! ## C3: mismatched transaction id during CONNECT -/

/-- C3: the claim says a 16-byte datagram from the tracker's address with
a non-matching transaction id is discarded and the wait continues to the
timeout.  The code instead aborts the exchange with a "Mismatched
transaction ids" error: with request transaction id 7, a tracker datagram
carrying transaction id 5 completes the exchange with an error (first
conjunct), whereas only a wrong-source datagram is actually discarded
until timeout (second conjunct). -/
theorem tracker_mismatched_tid_errs :
    trackerConnectModel 7 0
      [(0, [0, 0, 0, 0, 0, 0, 0, 5, 0, 0, 0, 0, 0, 0, 0, 9])] =
      .mismatchedTid ∧
    trackerConnectModel 7 0
      [(1, [0, 0, 0, 0, 0, 0, 0, 5, 0, 0, 0, 0, 0, 0, 0, 9])] =
      .timedOut := by
  decide

/-! ## C2: decoding buffers shorter than the fixed size -/

/-- C2 counterexample: the claim says decoding a CONNECT response shorter
than 16 bytes returns a `BadFormat` error result, not a crash; decoding
the empty input panics (slice out of range) instead. -/
theorem codec_short_input_cex :
    connectResponseFromBytes (ε := Unit) [] = .panic := by decide

/-- C2 amended: for every input shorter than its record's fixed size each
decoder crashes with a panic (a slice-range failure or, for the announce
tail, `&bytes[20..length]` with `20 > length`) instead of returning an
error: CONNECT responses below 16 bytes, ANNOUNCE datagrams below 20
bytes, and handshakes below `49 + pstrlen` bytes (`pstrlen` being the
first byte; the sign-extending read makes any first byte ≥ 128 panic as
well). -/
theorem codec_short_input_panics :
    (∀ bytes : List Nat, bytes.length < 16 →
      connectResponseFromBytes (ε := Unit) bytes = .panic) ∧
    (∀ (bytes : List Nat) (n : Nat), n < 20 →
      announceResponseFromBytes (ε := Unit) bytes n = .panic) ∧
    (∀ bytes : List Nat, bytes.headD 0 < 256 →
      bytes.length < 49 + bytes.headD 0 →
      hsFromBytes (ε := Unit) bytes = .panic) := by
  refine ⟨fun bytes h => ?_, fun bytes n h => ?_, fun bytes hb hlen => ?_⟩
  · simp only [connectResponseFromBytes]
    by_cases h4 : 4 ≤ bytes.length
    · rw [sliceGet_of _ (by omega) h4, RResult.bind_ok]
      by_cases h8 : 8 ≤ bytes.length
      · rw [sliceGet_of _ (by omega) h8, RResult.bind_ok,
          sliceGet_panic _ (by omega)]
        rfl
      · rw [sliceGet_panic _ (by omega)]
        rfl
    · rw [sliceGet_panic _ (by omega)]
      rfl
  · simp only [announceResponseFromBytes]
    by_cases h4 : 4 ≤ bytes.length
    · rw [sliceGet_of _ (by omega) h4, RResult.bind_ok]
      by_cases h8 : 8 ≤ bytes.length
      · rw [sliceGet_of _ (by omega) h8, RResult.bind_ok]
        by_cases h12 : 12 ≤ bytes.length
        · rw [sliceGet_of _ (by omega) h12, RResult.bind_ok]
          by_cases h16 : 16 ≤ bytes.length
          · rw [sliceGet_of _ (by omega) h16, RResult.bind_ok]
            by_cases h20 : 20 ≤ bytes.length
            · rw [sliceGet_of _ (by omega) h20, RResult.bind_ok,
                sliceGet_panic _ (by omega)]
              rfl
            · rw [sliceGet_panic _ (by omega)]
              rfl
          · rw [sliceGet_panic _ (by omega)]
            rfl
        · rw [sliceGet_panic _ (by omega)]
          rfl
      · rw [sliceGet_panic _ (by omega)]
        rfl
    · rw [sliceGet_panic _ (by omega)]
      rfl
  · simp only [hsFromBytes]
    by_cases h0 : bytes.length < 1
    · rw [if_pos h0]
    · rw [if_neg h0]
      by_cases hsmall : bytes.headD 0 < 128
      · simp only [if_pos hsmall]
        by_cases h1 : bytes.headD 0 + 1 ≤ bytes.length
        · rw [sliceGet_of _ (by omega) h1, RResult.bind_ok]
          by_cases h9 : bytes.headD 0 + 9 ≤ bytes.length
          · rw [sliceGet_of _ (by omega) h9, RResult.bind_ok]
            by_cases h29 : bytes.headD 0 + 29 ≤ bytes.length
            · rw [sliceGet_of _ (by omega) h29, RResult.bind_ok,
                sliceGet_panic _ (by omega)]
              rfl
            · rw [sliceGet_panic _ (by omega)]
              rfl
          · rw [sliceGet_panic _ (by omega)]
            rfl
        · rw [sliceGet_panic _ (by omega)]
          rfl
      · simp only [if_neg hsmall]
        rw [sliceGet_panic _ (by omega)]
        rfl

/-- C2 witness: the amended theorem applied at a 3-byte CONNECT input, a
19-byte announce length and a 3-byte handshake input. -/
theorem codec_short_input_panics_witness :
    connectResponseFromBytes (ε := Unit) [1, 2, 3] = .panic ∧
    announceResponseFromBytes (ε := Unit) [] 19 = .panic ∧
    hsFromBytes (ε := Unit) [5, 1, 2] = .panic :=
  ⟨codec_short_input_panics.1 [1, 2, 3] (by decide),
   codec_short_input_panics.2.1 [] 19 (by decide),
   codec_short_input_panics.2.2 [5, 1, 2] (by decide) (by decide)⟩

/-! ## C8: orchestrator deduplication -/

theorem firstSeenDedup_cons (x : PeerAddr) (xs : List PeerAddr) :
    firstSeenDedup (x :: xs) =
      x :: firstSeenDedup (xs.filter fun y => decide (y ≠ x)) := by
  rw [firstSeenDedup]

theorem dedupRetain_eq_firstSeen (l : List PeerAddr) :
    ∀ seen, dedupRetain seen l =
      firstSeenDedup (l.filter fun y => decide (y ∉ seen)) := by
  induction l with
  | nil => intro seen; rw [List.filter_nil, dedupRetain, firstSeenDedup]
  | cons x xs ih =>
    intro seen
    by_cases hx : x ∈ seen
    · rw [dedupRetain, if_pos hx, List.filter_cons, if_neg (by simp [hx])]
      exact ih seen
    · rw [dedupRetain, if_neg hx, List.filter_cons,
        if_pos (by simp [hx]), firstSeenDedup_cons, ih (x :: seen),
        List.filter_filter]
      refine congrArg _ (congrArg firstSeenDedup ?_)
      apply List.filter_congr
      intro y _
      by_cases h1 : y = x <;> by_cases h2 : y ∈ seen <;>
        simp [h1, h2, List.mem_cons]

/-- C8: the aggregation step of `Trackers::announce` equals the
concatenation of the per-tracker peer lists with every later duplicate
removed: each distinct `(ip, port)` survives exactly once, at the
position of its first occurrence in concatenation order
(`firstSeenDedup` is that characterization, written from the spec). -/
theorem announce_dedup_first_seen (results : List (List PeerAddr)) :
    announceAggregate results = firstSeenDedup results.flatten := by
  unfold announceAggregate
  rw [dedupRetain_eq_firstSeen]
  congr 1
  exact List.filter_eq_self.2 fun a _ => by simp

/-! ## C4: action field is never checked -/

theorem announceFromBytes_append {ε : Type} (data rest : List Nat) (n : Nat)
    (h20 : 20 ≤ data.length) (hn : n ≤ data.length) :
    announceResponseFromBytes (ε := ε) (data ++ rest) n =
      announceResponseFromBytes data n := by
  simp only [announceResponseFromBytes]
  rw [sliceGet_append rest (by omega), sliceGet_append rest (by omega),
    sliceGet_append rest (by omega), sliceGet_append rest (by omega),
    sliceGet_append rest (by omega), sliceGet_append rest hn]

/-- C4: the claim says a CONNECT response with an action other than 0 and
an ANNOUNCE response with an action other than 1 fail with `BadResponse`.
The code never reads the action field: a 16-byte CONNECT response with
action 1 and a matching transaction id yields the connection id, and a
20-byte ANNOUNCE response with action 0 and a matching transaction id
yields the (empty) peer list. -/
theorem tracker_action_unchecked :
    trackerConnectModel 7 0
      [(0, [0, 0, 0, 1, 0, 0, 0, 7, 0, 0, 0, 0, 0, 0, 0, 42])] = .ok 42 ∧
    trackerAnnounceModel 9 0
      [(0, [0, 0, 0, 0, 0, 0, 0, 9, 0, 0, 0, 1, 0, 0, 0, 2, 0, 0, 0, 3])] =
      .ok [] := by
  constructor
  · decide
  · have hd : ([0, 0, 0, 0, 0, 0, 0, 9, 0, 0, 0, 1, 0, 0, 0, 2, 0, 0, 0, 3] :
      List Nat).length = 20 := rfl
    simp only [trackerAnnounceModel]
    generalize List.replicate 4000 0 = buf
    simp only [announceRecvLoop, hd]
    norm_num
    rw [show (0 :: 0 :: 0 :: 0 :: 0 :: 0 :: 0 :: 9 :: 0 :: 0 :: 0 :: 1 :: 0 ::
        0 :: 0 :: 2 :: 0 :: 0 :: 0 :: 3 :: List.drop 20 buf) =
        ([0, 0, 0, 0, 0, 0, 0, 9, 0, 0, 0, 1, 0, 0, 0, 2, 0, 0, 0, 3] ++
          List.drop 20 buf) from rfl]
    rw [announceFromBytes_append _ _ 20 (by decide) (by decide)]
    have hparse : announceResponseFromBytes (ε := Unit)
        [0, 0, 0, 0, 0, 0, 0, 9, 0, 0, 0, 1, 0, 0, 0, 2, 0, 0, 0, 3] 20 =
        .ok ⟨0, 9, 1, 2, 3, []⟩ := by decide
    rw [hparse]
    rfl

/-! ## C6: handshake encode/decode round-trip -/

theorem copyFromSlice_mid {ε : Type} (pre mid post src : List Nat) {a b : Nat}
    (hsrc : src.length = mid.length) (ha : a = pre.length)
    (hb : b = pre.length + mid.length) :
    copyFromSlice (ε := ε) (pre ++ mid ++ post) a b src =
      .ok (pre ++ src ++ post) := by
  subst ha hb
  rw [copyFromSlice_of _ _ (by omega)
    (by simp only [List.length_append]; omega) (by omega)]
  rw [List.append_assoc pre mid post, List.take_left,
    ← List.append_assoc pre mid post, List.drop_left' (by simp)]

theorem hsToBytes_eq {ε : Type} (h : HandShake) (hih : h.info_hash.length = 20)
    (hpid : h.peer_id.length = 20) :
    hsToBytes (ε := ε) h = .ok (hsLayout h) := by
  simp only [hsToBytes]
  rw [show List.replicate (49 + h.pstr.length) 0 =
      ([] : List Nat) ++ List.replicate 1 0 ++
        List.replicate (48 + h.pstr.length) 0 by
    rw [List.nil_append, List.append_replicate_replicate,
      show 1 + (48 + h.pstr.length) = 49 + h.pstr.length by omega]]
  rw [copyFromSlice_mid _ _ _ _ (by simp) (by simp) (by simp),
    RResult.bind_ok]
  rw [show ([] : List Nat) ++ [h.pstr.length % 256] ++
        List.replicate (48 + h.pstr.length) 0 =
      [h.pstr.length % 256] ++ List.replicate h.pstr.length 0 ++
        List.replicate 48 0 by
    rw [List.nil_append, List.append_assoc, List.append_replicate_replicate,
      show h.pstr.length + 48 = 48 + h.pstr.length by omega]]
  rw [copyFromSlice_mid _ _ _ _ (by simp) (by simp)
    (by simp only [List.length_cons, List.length_nil, List.length_replicate]
        omega),
    RResult.bind_ok]
  rw [show [h.pstr.length % 256] ++ h.pstr ++ List.replicate 48 0 =
      ([h.pstr.length % 256] ++ h.pstr) ++ List.replicate 8 0 ++
        List.replicate 40 0 by
    rw [List.append_assoc ([h.pstr.length % 256] ++ h.pstr),
      List.append_replicate_replicate]]
  rw [copyFromSlice_mid _ _ _ _ (by simp)
    (by simp only [List.length_append, List.length_cons, List.length_nil]
        omega)
    (by simp only [List.length_append, List.length_cons, List.length_nil,
          List.length_replicate]
        omega),
    RResult.bind_ok]
  rw [show ([h.pstr.length % 256] ++ h.pstr) ++ List.replicate 8 0 ++
        List.replicate 40 0 =
      (([h.pstr.length % 256] ++ h.pstr) ++ List.replicate 8 0) ++
        List.replicate 20 0 ++ List.replicate 20 0 by
    rw [List.append_assoc (([h.pstr.length % 256] ++ h.pstr) ++
        List.replicate 8 0),
      List.append_replicate_replicate]]
  rw [copyFromSlice_mid _ _ _ _ (by simp [hih])
    (by simp only [List.length_append, List.length_cons, List.length_nil,
          List.length_replicate]
        omega)
    (by simp only [List.length_append, List.length_cons, List.length_nil,
          List.length_replicate]
        omega),
    RResult.bind_ok]
  rw [show (([h.pstr.length % 256] ++ h.pstr) ++ List.replicate 8 0) ++
        h.info_hash ++ List.replicate 20 0 =
      ((([h.pstr.length % 256] ++ h.pstr) ++ List.replicate 8 0) ++
        h.info_hash) ++ List.replicate 20 0 ++ ([] : List Nat) by
    rw [List.append_nil]]
  rw [copyFromSlice_mid _ _ _ _ (by simp [hpid])
    (by simp only [List.length_append, List.length_cons, List.length_nil,
          List.length_replicate, hih]
        omega)
    (by simp only [List.length_append, List.length_cons, List.length_nil,
          List.length_replicate, hih]
        omega),
    RResult.bind_ok]
  simp [hsLayout, List.append_assoc]

theorem hsFromBytes_eq {ε : Type} (p ihash pid : List Nat) (hp : p.length ≤ 127)
    (hih : ihash.length = 20) (hpid : pid.length = 20) :
    hsFromBytes (ε := ε)
        (p.length :: (p ++ List.replicate 8 0 ++ ihash ++ pid)) =
      .ok ⟨p, ihash, pid⟩ := by
  have hlen : (p.length :: (p ++ List.replicate 8 0 ++ ihash ++ pid)).length =
      49 + p.length := by
    simp only [List.length_cons, List.length_append, List.length_replicate,
      hih, hpid]
    omega
  have e1 : (p.length :: (p ++ List.replicate 8 0 ++ ihash ++ pid)).drop 1 =
      p ++ (List.replicate 8 0 ++ (ihash ++ pid)) := by
    rw [List.drop_one, List.tail_cons, List.append_assoc, List.append_assoc]
  have e2 : ∀ k, (p.length ::
      (p ++ List.replicate 8 0 ++ ihash ++ pid)).drop (p.length + (k + 1)) =
      (List.replicate 8 0 ++ (ihash ++ pid)).drop k := by
    intro k
    rw [show p.length + (k + 1) = (p.length + k) + 1 by omega,
      List.drop_succ_cons, List.append_assoc, List.append_assoc]
    exact List.drop_append k
  have d8 : (List.replicate 8 0 ++ (ihash ++ pid)).drop 8 = ihash ++ pid :=
    List.drop_left' (by simp)
  have d28 : (List.replicate 8 0 ++ (ihash ++ pid)).drop 28 = pid := by
    rw [List.drop_append_eq_append_drop, List.drop_of_length_le (by decide),
      List.nil_append, List.length_replicate,
      List.drop_append_eq_append_drop, List.drop_of_length_le (by omega),
      List.nil_append, show 28 - 8 - ihash.length = 0 by omega, List.drop_zero]
  simp only [hsFromBytes]
  rw [if_neg (by simp), List.headD_cons, if_pos (by omega : p.length < 128)]
  rw [sliceGet_of _ (by omega) (by rw [hlen]; omega), RResult.bind_ok]
  rw [sliceGet_of _ (by omega) (by rw [hlen]; omega), RResult.bind_ok]
  rw [sliceGet_of _ (by omega) (by rw [hlen]; omega), RResult.bind_ok]
  rw [sliceGet_of _ (by omega) (by rw [hlen]; omega), RResult.bind_ok]
  rw [show p.length + 1 - 1 = p.length by omega,
    show p.length + 29 - (p.length + 9) = 20 by omega,
    show p.length + 49 - (p.length + 29) = 20 by omega]
  rw [show p.length + 29 = p.length + (28 + 1) by omega, e2 28, d28]
  rw [show p.length + 9 = p.length + (8 + 1) by omega, e2 8, d8]
  rw [e1, List.take_left, List.take_left' hih, List.take_of_length_le (by omega)]

/-- C6 counterexample: the claim asserts the round-trip for every pstr of
at most 255 bytes, but `from_bytes` reads the length byte with the
sign-extending `read_int`: encoding a handshake whose pstr has length 128
succeeds, yet decoding those bytes panics (the length byte 128 becomes
the 64-bit value `2^64 - 128` and the pstr slice is out of range). -/
theorem handshake_roundtrip_cex :
    hsToBytes (ε := Unit)
        ⟨List.replicate 128 65, List.replicate 20 97, List.replicate 20 98⟩ =
      .ok (hsLayout
        ⟨List.replicate 128 65, List.replicate 20 97, List.replicate 20 98⟩) ∧
    hsFromBytes (ε := Unit) (hsLayout
        ⟨List.replicate 128 65, List.replicate 20 97, List.replicate 20 98⟩) =
      .panic := by
  constructor
  · exact hsToBytes_eq _ (by decide) (by decide)
  · set_option maxRecDepth 8000 in decide

/-- C6 amended: for every handshake with pstr of at most 255 bytes and
20-byte info hash and peer id, `to_bytes` produces exactly the layout
`pstrlen(1, low byte) || pstr || 8 zero bytes || info_hash || peer_id` of
length `49 + pstrlen`; the decode round-trip `from_bytes (to_bytes h) = h`
holds when the pstr length is at most 127 (for 128–255 the sign-extending
length read panics, as the counterexample shows). -/
theorem handshake_roundtrip (h : HandShake) (hp : h.pstr.length ≤ 255)
    (hih : h.info_hash.length = 20) (hpid : h.peer_id.length = 20) :
    hsToBytes (ε := Unit) h = .ok (hsLayout h) ∧
    (hsLayout h).length = 49 + h.pstr.length ∧
    (h.pstr.length ≤ 127 →
      hsFromBytes (ε := Unit) (hsLayout h) = .ok h) := by
  refine ⟨hsToBytes_eq h hih hpid, ?_, fun hp127 => ?_⟩
  · simp only [hsLayout, List.length_append, List.length_cons,
      List.length_nil, List.length_replicate, hih, hpid]
    omega
  · have hshape : hsLayout h = h.pstr.length ::
        (h.pstr ++ List.replicate 8 0 ++ h.info_hash ++ h.peer_id) := by
      simp only [hsLayout, Nat.mod_eq_of_lt (by omega : h.pstr.length < 256)]
      rfl
    rw [hshape, hsFromBytes_eq _ _ _ hp127 hih hpid]

/-- C6 witness: the amended theorem at the repository's own test vector
(pstr `"protocol88"`, info hash 20 × 97, peer id 20 × 98). -/
theorem handshake_roundtrip_witness :
    hsToBytes (ε := Unit)
        ⟨[112, 114, 111, 116, 111, 99, 111, 108, 56, 56],
         List.replicate 20 97, List.replicate 20 98⟩ =
      .ok (hsLayout
        ⟨[112, 114, 111, 116, 111, 99, 111, 108, 56, 56],
         List.replicate 20 97, List.replicate 20 98⟩) ∧
    hsFromBytes (ε := Unit) (hsLayout
        ⟨[112, 114, 111, 116, 111, 99, 111, 108, 56, 56],
         List.replicate 20 97, List.replicate 20 98⟩) =
      .ok ⟨[112, 114, 111, 116, 111, 99, 111, 108, 56, 56],
        List.replicate 20 97, List.replicate 20 98⟩ := by
  have h := handshake_roundtrip
    ⟨[112, 114, 111, 116, 111, 99, 111, 108, 56, 56],
     List.replicate 20 97, List.replicate 20 98⟩
    (by decide) (by decide) (by decide)
  exact ⟨h.1, h.2.2 (by decide)⟩

/-! ## C7: peer handshake validation -/

/-- C7 counterexample: the claim says any reply whose pstr differs fails
with `BadProtocol`.  A reply encoding pstr `[66, 66]` (≠ the requester's
`[65]`) makes the decode panic instead: the client reads only
`49 + 1 = 50` bytes, and `from_bytes` then slices past the buffer using
the reply's larger length byte. -/
theorem peer_handshake_cex :
    peerHandshake ⟨[65], List.replicate 20 1, List.replicate 20 2⟩
        ([2, 66, 66] ++ List.replicate 8 0 ++ List.replicate 20 1 ++
          List.replicate 20 2) = .panic ∧
    ([66, 66] : List Nat) ≠ [65] := by
  constructor
  · decide
  · decide

/-- C7 amended: for every reply whose pstr has the same length as the
requester's protocol (at most 127 bytes, with 20-byte hashes and ids on
both sides), the handshake compares pstr first (`BadProtocol` on
mismatch), then the info hash (`BadInfoHash`), and otherwise succeeds,
returning the remote handshake with its peer id taken from the reply
without validation.  Replies of a different pstr length do not reach the
comparisons: they fail the read or panic in the decoder, as the
counterexample shows. -/
theorem peer_handshake_validation (opts : PeerStreamOpts) (reply : HandShake)
    (h1 : opts.protocol.length ≤ 127) (h2 : opts.info_hash.length = 20)
    (h3 : opts.peer_id.length = 20)
    (h4 : reply.pstr.length = opts.protocol.length)
    (h5 : reply.info_hash.length = 20) (h6 : reply.peer_id.length = 20) :
    peerHandshake opts (hsLayout reply) =
      (if opts.protocol ≠ reply.pstr then .err .badProtocol
       else if opts.info_hash ≠ reply.info_hash then .err .badInfoHash
       else .ok reply) := by
  have hlr : (hsLayout reply).length = 49 + reply.pstr.length := by
    simp only [hsLayout, List.length_append, List.length_cons,
      List.length_nil, List.length_replicate, h5, h6]
    omega
  have hlq : (hsLayout ⟨opts.protocol, opts.info_hash, opts.peer_id⟩).length =
      49 + opts.protocol.length := by
    simp only [hsLayout, List.length_append, List.length_cons,
      List.length_nil, List.length_replicate, h2, h3]
    omega
  simp only [peerHandshake]
  rw [hsToBytes_eq ⟨opts.protocol, opts.info_hash, opts.peer_id⟩ h2 h3,
    RResult.bind_ok]
  rw [if_pos (le_of_eq (by rw [hlq, hlr, h4]))]
  rw [List.take_of_length_le (le_of_eq (by rw [hlq, hlr, h4]))]
  rw [RResult.bind_ok]
  have hshape : hsLayout reply = reply.pstr.length ::
      (reply.pstr ++ List.replicate 8 0 ++ reply.info_hash ++ reply.peer_id) := by
    simp only [hsLayout,
      Nat.mod_eq_of_lt (show reply.pstr.length < 256 by omega)]
    rfl
  rw [hshape, hsFromBytes_eq _ _ _ (by omega) h5 h6, RResult.bind_ok]

/-- C7 witness: the amended theorem at a 1-byte protocol with matching
pstr and info hash; the reply's differing peer id is returned unchecked. -/
theorem peer_handshake_validation_witness :
    peerHandshake ⟨[80], List.replicate 20 1, List.replicate 20 2⟩
        (hsLayout ⟨[80], List.replicate 20 1, List.replicate 20 3⟩) =
      .ok ⟨[80], List.replicate 20 1, List.replicate 20 3⟩ := by
  have h := peer_handshake_validation
    ⟨[80], List.replicate 20 1, List.replicate 20 2⟩
    ⟨[80], List.replicate 20 1, List.replicate 20 3⟩
    (by decide) (by decide) (by decide) (by decide) (by decide) (by decide)
  simpa using h

/-! ## C5: framed message reading -/

/-- C5 counterexample: the claim says every stream whose first 4 bytes
encode `L > 0` followed by `L` bytes yields a `RawMessage` with the first
of those bytes as id.  For `L = 2^31` the code reads the length with the
sign-extending `read_int` and casts to `usize`, producing
`2^64 - 2^31 > isize::MAX`, so `vec![0u8; length]` panics with a capacity
overflow instead. -/
theorem read_message_cex :
    beNat [128, 0, 0, 0] = 2 ^ 31 ∧
    ([128, 0, 0, 0] ++ List.replicate (2 ^ 31) 17 : List Nat).length =
      4 + 2 ^ 31 ∧
    readMessage ([128, 0, 0, 0] ++ List.replicate (2 ^ 31) 17) = .panic := by
  have hlen : ([128, 0, 0, 0] ++ List.replicate (2 ^ 31) 17 :
      List Nat).length = 4 + 2 ^ 31 := by
    rw [List.length_append, List.length_replicate]
    rfl
  refine ⟨by decide, hlen, ?_⟩
  simp only [readMessage]
  rw [if_pos (by rw [hlen]; omega)]
  rw [List.take_left' (by decide : ([128, 0, 0, 0] : List Nat).length = 4)]
  rw [show beNat [128, 0, 0, 0] = 2147483648 by decide]
  rw [if_neg (show ¬((2147483648 : Nat) < 2 ^ 31) by norm_num)]
  rw [if_pos (by omega)]

/-- C5 amended: provided the 4-byte big-endian length `L` is below `2^31`
(so that the signed read is non-negative), `read_message` on a stream of
bytes with at least `L` further bytes returns the message whose id is the
first of those `L` bytes and whose payload is the remaining `L - 1`
(`L = 0` gives the keep-alive sentinel `{0, []}`). -/
theorem read_message_frames (s : List Nat) (hb : ∀ x ∈ s, x < 256)
    (h4 : 4 ≤ s.length) (hL : beNat (s.take 4) < 2 ^ 31)
    (hlen : 4 + beNat (s.take 4) ≤ s.length) :
    readMessage s = .ok ⟨((s.drop 4).take (beNat (s.take 4))).headD 0,
      ((s.drop 4).take (beNat (s.take 4))).tail⟩ := by
  simp only [readMessage]
  rw [if_pos h4, if_pos hL]
  have hmod : (((beNat (s.take 4) : Nat) : Int) % 2 ^ 64).toNat =
      beNat (s.take 4) := by
    omega
  rw [hmod, if_neg (by omega), if_pos hlen]
  have hhead : ((s.drop 4).take (beNat (s.take 4))).headD 0 < 256 := by
    cases hc : (s.drop 4).take (beNat (s.take 4)) with
    | nil => simp
    | cons b rest =>
      have hmem : b ∈ s := by
        have hmem0 : b ∈ (s.drop 4).take (beNat (s.take 4)) := by
          rw [hc]
          exact List.mem_cons_self b rest
        exact List.drop_subset 4 s (List.take_subset _ _ hmem0)
      simpa [hc] using hb b hmem
  rw [rawFromBytes_headD _ hhead]

/-- C5 witness: the amended theorem at the spec's own example stream
`[0,0,0,4,1,2,2,4]`, which frames to id 1 and payload `[2,2,4]`. -/
theorem read_message_frames_witness :
    readMessage [0, 0, 0, 4, 1, 2, 2, 4] = .ok ⟨1, [2, 2, 4]⟩ := by
  have h := read_message_frames [0, 0, 0, 4, 1, 2, 2, 4]
    (by decide) (by decide) (by decide) (by decide)
  simpa using h

/-! ## C1: magnet parsing without a valid xt key -/

/-- C1 counterexample: the claim says every link with no valid `xt` pair
fails with `BadFormat`.  The link `"magnet:?dn=a"` has no `xt` item at
all, yet `from_link` succeeds, returning the all-zero 20-byte info hash
it never overwrote. -/
theorem magnet_no_xt_cex :
    (∀ it ∈ magnetItems [109, 97, 103, 110, 101, 116, 58, 63, 100, 110, 61, 97],
      itemNotXt it = true) ∧
    fromLink [109, 97, 103, 110, 101, 116, 58, 63, 100, 110, 61, 97] =
      .ok ⟨List.replicate 20 0, [97], []⟩ := by
  decide

theorem processItems_no_xt (items : List (List Nat)) :
    ∀ st : MagnetState, (∀ it ∈ items, itemNotXt it = true) →
      ∃ st2, processItems items st = .ok st2 ∧
        st2.exact_topic = st.exact_topic := by
  induction items with
  | nil => intro st _; exact ⟨st, rfl, rfl⟩
  | cons it rest ih =>
    intro st hall
    have hit := hall it (List.mem_cons_self it rest)
    have hrest : ∀ x ∈ rest, itemNotXt x = true := fun x hx =>
      hall x (List.mem_cons_of_mem it hx)
    unfold itemNotXt at hit
    cases hsp : splitOnceEq it with
    | none => rw [hsp] at hit; exact absurd hit (by simp)
    | some kv =>
      obtain ⟨k, v⟩ := kv
      rw [hsp] at hit
      have hk : k ≠ [120, 116] := by simpa using hit
      simp only [processItems, hsp]
      by_cases hdn : k = [100, 110]
      · rw [if_neg hk, if_pos hdn]
        exact ih { st with display_name := v } hrest
      · by_cases htr : k = [116, 114]
        · rw [if_neg hk, if_neg hdn, if_pos htr]
          exact ih { st with trackers := st.trackers ++ [v] } hrest
        · rw [if_neg hk, if_neg hdn, if_neg htr]
          exact ih st hrest

/-- C1 amended: `from_link` does not fail for lack of an `xt` key.  For
every link whose percent-decoding is valid UTF-8, whose decoded form has
at least the 8 bytes of `"magnet:?"` with a character boundary there, and
whose items all contain `=` with a key other than `xt`, parsing succeeds
and returns the never-overwritten all-zero info hash.  (An error is only
possible from invalid UTF-8 out of the decoder or from a failing hex
decode of an `xt` value; structurally bad items panic instead.) -/
theorem magnet_no_xt_succeeds (link : List Nat)
    (hu : utf8Valid (percentDecode link) = true)
    (h8 : 8 ≤ (percentDecode link).length)
    (hb : isCharBoundary (percentDecode link) 8 = true)
    (hitems : ∀ it ∈ magnetItems link, itemNotXt it = true) :
    ∃ m : Magnet, fromLink link = .ok m ∧
      m.info_hash = List.replicate 20 0 := by
  simp only [fromLink]
  rw [if_pos hu]
  rw [show sliceFrom (ε := MagnetErr) (percentDecode link) 8 =
      .ok ((percentDecode link).drop 8) from by simp [sliceFrom, h8, hb]]
  rw [RResult.bind_ok]
  obtain ⟨st2, h1, h2⟩ := processItems_no_xt
    (splitOnAmp ((percentDecode link).drop 8)) ⟨[], List.replicate 20 0, []⟩
    hitems
  rw [h1, RResult.bind_ok]
  exact ⟨⟨st2.exact_topic, st2.display_name, st2.trackers⟩, rfl, h2⟩

/-- C1 witness: the amended theorem applied to the concrete link
`"magnet:?dn=a"`. -/
theorem magnet_no_xt_succeeds_witness :
    ∃ m : Magnet,
      fromLink [109, 97, 103, 110, 101, 116, 58, 63, 100, 110, 61, 97] =
        .ok m ∧ m.info_hash = List.replicate 20 0 :=
  magnet_no_xt_succeeds _ (by decide) (by decide) (by decide) (by decide)
